import Mathlib

/-!
Verification of the overlay-network / path-index claims of this repository.

The development shallowly embeds the relevant Go functions:

* `pathdb` — `triedb/pathdb/taikopath.go`: the `pathIndex` structure with
  `getLatestID`, `addPath`, and the RLP-journalled `loadPathIndex` /
  `savePathIndex` pair.
* `discover` — `p2p/discover/api.go`: the RPC-facing portal calls
  (`HistoryFindContent`, `HistoryLocalContent`, `HistoryStore`, gossip,
  content lookup), together with the pieces of the portal wire protocol they
  rest on.  Protocol internals that are not part of the sources at hand are
  modelled from the specification and marked as such in their doc comments.

Byte strings are `List Nat` with each element a byte value; machine integers
are `Nat` with explicit bounds where overflow matters.
-/

namespace pathdb

/-- Errors produced by the path-index operations of `taikopath.go`:
`"id list is nil"` and `pathLatestIDError` (`"latest id not found"`). -/
inductive PathErr where
  | nilIdList : PathErr
  | pathLatestIDError : PathErr
deriving DecidableEq, Repr

/-- `pathIndex` from `taikopath.go`: a database key plus a list of layer ids.
`idList` is an `Option` so that the Go distinction between a nil slice and an
empty slice is preserved (`getLatestID` treats nil specially). -/
structure pathIndex where
  key : List Nat
  idList : Option (List Nat)
deriving DecidableEq, Repr

/-- The scan inside `getLatestID`: the Go loop
`for i := len(ids) - 1; i >= 0; i--` returns the first entry `≤ startID`
encountered when walking from the last element towards the first.  In
`findFromEnd (i :: rest) s` the later entries (`rest`) are therefore examined
before `i`. -/
def findFromEnd : List Nat → Nat → Option Nat
  | [], _ => none
  | i :: rest, s =>
    match findFromEnd rest s with
    | some v => some v
    | none => if i ≤ s then some i else none

/-- `getLatestID` from `taikopath.go`: errors on a nil `idList`, otherwise
returns the last stored id that is `≤ startID`, or `pathLatestIDError` when
no stored id qualifies. -/
def getLatestID (p : pathIndex) (startID : Nat) : Except PathErr Nat :=
  match p.idList with
  | none => .error .nilIdList
  | some ids =>
    match findFromEnd ids startID with
    | some v => .ok v
    | none => .error .pathLatestIDError

/-- `addPath` from `taikopath.go`: `p.idList = append(p.idList, id)`; appending
to a nil slice yields a non-nil one-element slice. -/
def addPath (p : pathIndex) (id : Nat) : pathIndex :=
  { p with idList := some (p.idList.getD [] ++ [id]) }

theorem findFromEnd_mem_le {ids : List Nat} {s v : Nat}
    (h : findFromEnd ids s = some v) : v ∈ ids ∧ v ≤ s := by
  induction ids with
  | nil => simp [findFromEnd] at h
  | cons i rest ih =>
    unfold findFromEnd at h
    cases hr : findFromEnd rest s with
    | some w =>
      rw [hr] at h
      have hwv : w = v := by simpa using h
      subst hwv
      obtain ⟨hmem, hle⟩ := ih hr
      exact ⟨List.mem_cons_of_mem _ hmem, hle⟩
    | none =>
      rw [hr] at h
      by_cases hle : i ≤ s
      · simp [hle] at h
        exact ⟨by simp [← h], by omega⟩
      · simp [hle] at h

theorem findFromEnd_eq_none {ids : List Nat} {s : Nat}
    (h : findFromEnd ids s = none) : ∀ x ∈ ids, s < x := by
  induction ids with
  | nil => simp
  | cons i rest ih =>
    unfold findFromEnd at h
    cases hr : findFromEnd rest s with
    | some w => rw [hr] at h; simp at h
    | none =>
      rw [hr] at h
      by_cases hle : i ≤ s
      · simp [hle] at h
      · intro x hx
        rcases List.mem_cons.mp hx with hxi | hxr
        · omega
        · exact ih hr x hxr

theorem findFromEnd_isSome {ids : List Nat} {s x : Nat}
    (hx : x ∈ ids) (hle : x ≤ s) : ∃ v, findFromEnd ids s = some v := by
  cases h : findFromEnd ids s with
  | some v => exact ⟨v, rfl⟩
  | none => exact absurd hle (by have := findFromEnd_eq_none h x hx; omega)

theorem findFromEnd_maximal {ids : List Nat} {s v : Nat}
    (hsorted : List.Pairwise (· ≤ ·) ids)
    (h : findFromEnd ids s = some v) : ∀ x ∈ ids, x ≤ s → x ≤ v := by
  induction ids with
  | nil => simp
  | cons i rest ih =>
    obtain ⟨hhead, htail⟩ := List.pairwise_cons.mp hsorted
    unfold findFromEnd at h
    intro x hx hxs
    cases hr : findFromEnd rest s with
    | some w =>
      rw [hr] at h
      have hwv : w = v := by simpa using h
      subst hwv
      obtain ⟨hwmem, _⟩ := findFromEnd_mem_le hr
      rcases List.mem_cons.mp hx with hxi | hxr
      · subst hxi
        exact hhead w hwmem
      · exact ih htail hr x hxr hxs
    | none =>
      rw [hr] at h
      have hnone := findFromEnd_eq_none hr
      by_cases hle : i ≤ s
      · simp [hle] at h
        rcases List.mem_cons.mp hx with hxi | hxr
        · omega
        · exact absurd hxs (by have := hnone x hxr; omega)
      · simp [hle] at h

/-- C9: for a `pathIndex` whose `idList` is non-nil and ascending,
`getLatestID startID` succeeds with the largest stored id `≤ startID`;
it returns `pathLatestIDError` when every stored id exceeds `startID`,
errors on a nil `idList`, and a successful result never exceeds `startID`. -/
theorem getLatestID_spec (p : pathIndex) (ids : List Nat) (startID : Nat)
    (hids : p.idList = some ids) (hsorted : List.Pairwise (· ≤ ·) ids) :
    ((∃ x ∈ ids, x ≤ startID) →
      ∃ v, getLatestID p startID = Except.ok v ∧ v ∈ ids ∧ v ≤ startID ∧
        ∀ x ∈ ids, x ≤ startID → x ≤ v)
    ∧ ((∀ x ∈ ids, startID < x) →
      getLatestID p startID = Except.error PathErr.pathLatestIDError)
    ∧ (∀ q : pathIndex, q.idList = none →
      getLatestID q startID = Except.error PathErr.nilIdList)
    ∧ (∀ v, getLatestID p startID = Except.ok v → v ≤ startID) := by
  refine ⟨?_, ?_, ?_, ?_⟩
  · rintro ⟨x, hx, hxle⟩
    obtain ⟨v, hv⟩ := findFromEnd_isSome hx hxle
    obtain ⟨hmem, hle⟩ := findFromEnd_mem_le hv
    exact ⟨v, by simp [getLatestID, hids, hv], hmem, hle,
      findFromEnd_maximal hsorted hv⟩
  · intro hall
    cases hfe : findFromEnd ids startID with
    | some v =>
      obtain ⟨hmem, hle⟩ := findFromEnd_mem_le hfe
      exact absurd hle (by have := hall v hmem; omega)
    | none => simp [getLatestID, hids, hfe]
  · intro q hq
    simp [getLatestID, hq]
  · intro v hv
    cases hfe : findFromEnd ids startID with
    | some w =>
      simp [getLatestID, hids, hfe] at hv
      have := (findFromEnd_mem_le hfe).2
      omega
    | none => simp [getLatestID, hids, hfe] at hv

/-- Witness for C9 at the concrete index `⟨[], some [1, 3, 5]⟩` and
`startID = 4`: the call returns the largest stored id `≤ 4`. -/
theorem getLatestID_spec_witness :
    ∃ v, getLatestID ⟨[], some [1, 3, 5]⟩ 4 = Except.ok v ∧
      v ∈ [1, 3, 5] ∧ v ≤ 4 ∧ ∀ x ∈ [1, 3, 5], x ≤ 4 → x ≤ v :=
  (getLatestID_spec ⟨[], some [1, 3, 5]⟩ [1, 3, 5] 4 rfl (by decide)).1
    ⟨3, by decide, by decide⟩

namespace rlp

/-- Modelled from the spec: the minimal big-endian byte string of a natural
number, empty for `0`, as the go-ethereum `rlp` package produces for integer
payloads and long length headers. -/
def natToBE (n : Nat) : List Nat :=
  if h : n = 0 then []
  else natToBE (n / 256) ++ [n % 256]
termination_by n
decreasing_by exact Nat.div_lt_self (Nat.pos_of_ne_zero h) (by norm_num)

/-- Big-endian byte string read back as a natural number. -/
def beToNat (bs : List Nat) : Nat :=
  bs.foldl (fun acc b => acc * 256 + b) 0

/-- Modelled from the spec: the RLP encoding of one unsigned-integer item:
`0x80` for zero, the byte itself below `0x80`, otherwise
`0x80 + len` followed by the minimal big-endian bytes. -/
def encUint (v : Nat) : List Nat :=
  if v = 0 then [0x80]
  else if v < 0x80 then [v]
  else (0x80 + (natToBE v).length) :: natToBE v

/-- Modelled from the spec: the RLP header announcing a list payload of `n`
bytes: `0xc0 + n` for short payloads, otherwise `0xf7 + len n` followed by
the big-endian bytes of `n`. -/
def encListHeader (n : Nat) : List Nat :=
  if n ≤ 55 then [0xc0 + n]
  else (0xf7 + (natToBE n).length) :: natToBE n

/-- Modelled from the spec: the RLP encoding of a `[]uint64` value — the
concatenated item encodings behind a list header. -/
def encUintList (ids : List Nat) : List Nat :=
  encListHeader ((ids.map encUint).flatten).length ++ (ids.map encUint).flatten

/-- Modelled from the spec: the RLP encoding of `journalIndex` — a struct with
the single field `IDList []uint64` encodes as a one-element list wrapping the
slice encoding. -/
def encJournalIndex (ids : List Nat) : List Nat :=
  encListHeader (encUintList ids).length ++ encUintList ids

/-- Modelled from the spec: decode one RLP unsigned-integer item from the
front of the input, returning the value and the remaining bytes. -/
def decUint : List Nat → Option (Nat × List Nat)
  | [] => none
  | b :: rest =>
    if b < 0x80 then some (b, rest)
    else if b ≤ 0xb7 then
      if b - 0x80 ≤ rest.length then
        some (beToNat (rest.take (b - 0x80)), rest.drop (b - 0x80))
      else none
    else none

/-- Modelled from the spec: decode an RLP list header from the front of the
input, returning the announced payload length and the remaining bytes. -/
def decListHeader : List Nat → Option (Nat × List Nat)
  | [] => none
  | b :: rest =>
    if b < 0xc0 then none
    else if b ≤ 0xf7 then some (b - 0xc0, rest)
    else
      if b - 0xf7 ≤ rest.length then
        some (beToNat (rest.take (b - 0xf7)), rest.drop (b - 0xf7))
      else none

/-- Modelled from the spec: decode a run of RLP unsigned-integer items until
the payload is exhausted.  `fuel` bounds the number of items; each item
consumes at least one byte, so the payload length is enough fuel. -/
def decUints : Nat → List Nat → Option (List Nat)
  | _, [] => some []
  | 0, _ :: _ => none
  | fuel + 1, b :: rest =>
    match decUint (b :: rest) with
    | none => none
    | some (v, rest2) =>
      match decUints fuel rest2 with
      | none => none
      | some vs => some (v :: vs)

/-- Modelled from the spec: decode a `journalIndex` value — an outer
one-field-struct list wrapping a `[]uint64` list whose items must fill the
announced payloads exactly, as `rlp.Decode` enforces. -/
def decJournalIndex (data : List Nat) : Option (List Nat) :=
  match decListHeader data with
  | none => none
  | some (n, rest) =>
    if n ≤ rest.length then
      match decListHeader (rest.take n) with
      | none => none
      | some (m, rest2) =>
        if m = rest2.length then decUints rest2.length rest2 else none
    else none

theorem beToNat_append_one (bs : List Nat) (b : Nat) :
    beToNat (bs ++ [b]) = beToNat bs * 256 + b := by
  simp [beToNat, List.foldl_append]

theorem beToNat_natToBE (n : Nat) : beToNat (natToBE n) = n := by
  induction n using Nat.strong_induction_on with
  | _ n ih =>
    by_cases h : n = 0
    · simp [natToBE, h, beToNat]
    · rw [natToBE, dif_neg h, beToNat_append_one,
        ih (n / 256) (Nat.div_lt_self (Nat.pos_of_ne_zero h) (by norm_num))]
      omega

theorem natToBE_ne_nil {n : Nat} (h : n ≠ 0) : natToBE n ≠ [] := by
  rw [natToBE, dif_neg h]
  simp

theorem natToBE_length_le : ∀ (k n : Nat), n < 256 ^ k → (natToBE n).length ≤ k := by
  intro k
  induction k with
  | zero =>
    intro n hn
    interval_cases n
    simp [natToBE]
  | succ k ih =>
    intro n hn
    by_cases h : n = 0
    · simp [natToBE, h]
    · rw [natToBE, dif_neg h]
      have hdiv : n / 256 < 256 ^ k := by
        rw [Nat.div_lt_iff_lt_mul (by norm_num)]
        calc n < 256 ^ (k + 1) := hn
        _ = 256 ^ k * 256 := by ring
      have := ih (n / 256) hdiv
      simp only [List.length_append, List.length_cons, List.length_nil]
      omega

theorem decUint_enc (v : Nat) (tail : List Nat) (hv : v < 2 ^ 64) :
    decUint (encUint v ++ tail) = some (v, tail) := by
  by_cases h0 : v = 0
  · subst h0
    simp [encUint, decUint, beToNat]
  · by_cases hsmall : v < 0x80
    · simp [encUint, decUint, h0, hsmall]
    · have hlen : (natToBE v).length ≤ 8 := natToBE_length_le 8 v (by norm_num at hv ⊢; omega)
      rw [encUint, if_neg h0, if_neg hsmall]
      show decUint ((0x80 + (natToBE v).length) :: (natToBE v ++ tail)) = _
      rw [decUint]
      rw [if_neg (by omega), if_pos (by omega)]
      have harith : 0x80 + (natToBE v).length - 0x80 = (natToBE v).length := by omega
      rw [harith, if_pos (by simp)]
      rw [List.take_left, List.drop_left, beToNat_natToBE]

theorem decListHeader_enc (n : Nat) (tail : List Nat) :
    decListHeader (encListHeader n ++ tail) = some (n, tail) := by
  by_cases hshort : n ≤ 55
  · rw [encListHeader, if_pos hshort]
    show decListHeader ((0xc0 + n) :: tail) = _
    rw [decListHeader]
    rw [if_neg (by omega), if_pos (by omega)]
    have harith : 0xc0 + n - 0xc0 = n := by omega
    rw [harith]
  · have hn0 : n ≠ 0 := by omega
    have hne := natToBE_ne_nil hn0
    have hpos : 0 < (natToBE n).length := List.length_pos.mpr hne
    rw [encListHeader, if_neg hshort]
    show decListHeader ((0xf7 + (natToBE n).length) :: (natToBE n ++ tail)) = _
    rw [decListHeader]
    rw [if_neg (by omega), if_neg (by omega)]
    have harith : 0xf7 + (natToBE n).length - 0xf7 = (natToBE n).length := by omega
    rw [harith, if_pos (by simp)]
    rw [List.take_left, List.drop_left, beToNat_natToBE]

theorem encUint_ne_nil (v : Nat) : encUint v ≠ [] := by
  unfold encUint
  by_cases h0 : v = 0
  · simp [h0]
  · by_cases hsmall : v < 0x80 <;> simp [h0, hsmall]

theorem length_le_flatten_encUint (ids : List Nat) :
    ids.length ≤ ((ids.map encUint).flatten).length := by
  induction ids with
  | nil => simp
  | cons v rest ih =>
    have hpos : 0 < (encUint v).length := List.length_pos.mpr (encUint_ne_nil v)
    simp only [List.map_cons, List.flatten_cons, List.length_append, List.length_cons]
    omega

theorem decUints_enc (ids : List Nat) (hbound : ∀ v ∈ ids, v < 2 ^ 64) :
    ∀ fuel, ids.length ≤ fuel →
      decUints fuel ((ids.map encUint).flatten) = some ids := by
  induction ids with
  | nil =>
    intro fuel _
    simp only [List.map_nil, List.flatten_nil]
    cases fuel <;> rfl
  | cons v rest ih =>
    intro fuel hfuel
    obtain ⟨f, rfl⟩ : ∃ f, fuel = f + 1 := by
      cases fuel with
      | zero => simp at hfuel
      | succ f => exact ⟨f, rfl⟩
    simp only [List.map_cons, List.flatten_cons]
    obtain ⟨b, bs, hb⟩ : ∃ b bs, encUint v = b :: bs := by
      cases h : encUint v with
      | nil => exact absurd h (encUint_ne_nil v)
      | cons b bs => exact ⟨b, bs, rfl⟩
    have hdec : decUint (encUint v ++ (rest.map encUint).flatten) =
        some (v, (rest.map encUint).flatten) :=
      decUint_enc v _ (hbound v (List.mem_cons_self v rest))
    rw [hb] at hdec ⊢
    rw [List.cons_append] at hdec ⊢
    rw [decUints, hdec]
    have hr := ih (fun x hx => hbound x (List.mem_cons_of_mem v hx)) f (by simpa using hfuel)
    simp [hr]

theorem decJournalIndex_enc (ids : List Nat) (hbound : ∀ v ∈ ids, v < 2 ^ 64) :
    decJournalIndex (encJournalIndex ids) = some ids := by
  rw [encJournalIndex, decJournalIndex, decListHeader_enc]
  simp only [le_refl, if_pos, List.take_length]
  rw [encUintList, decListHeader_enc]
  simp only [if_pos, if_true]
  exact decUints_enc ids hbound _ (length_le_flatten_encUint ids)

theorem encListHeader_ne_nil (n : Nat) : encListHeader n ≠ [] := by
  unfold encListHeader
  by_cases h : n ≤ 55 <;> simp [h]

theorem encJournalIndex_length_ne_zero (ids : List Nat) :
    (encJournalIndex ids).length ≠ 0 := by
  rw [encJournalIndex]
  have := encListHeader_ne_nil (encUintList ids).length
  cases h : encListHeader (encUintList ids).length with
  | nil => exact absurd h this
  | cons b bs => simp [h]

end rlp

/-- Modelled from the spec: the key-value store behind `rawdb.ReadPathIndex`
and `rawdb.WritePathIndex`.  Reading a key that was never written yields the
empty byte string, matching `len(data) == 0` in `loadPathIndex`. -/
def DB : Type := List Nat → List Nat

/-- `rawdb.ReadPathIndex`: read the bytes stored under `key`. -/
def ReadPathIndex (db : DB) (key : List Nat) : List Nat := db key

/-- `rawdb.WritePathIndex`: store `val` under `key`. -/
def WritePathIndex (db : DB) (key val : List Nat) : DB :=
  fun k => if k = key then val else db k

/-- `loadPathIndex` from `taikopath.go`: an absent key yields a fresh index
with a non-nil zero-length `idList`; otherwise the stored bytes are RLP-decoded
into `journalIndex` and its `IDList` becomes the index's `idList` (`rlp`
decoding always produces a non-nil slice).  A decode failure is an error,
modelled as `none`. -/
def loadPathIndex (db : DB) (key : List Nat) : Option pathIndex :=
  let data := ReadPathIndex db key
  if data.length = 0 then some ⟨key, some []⟩
  else
    match rlp.decJournalIndex data with
    | none => none
    | some ids => some ⟨key, some ids⟩

/-- `savePathIndex` from `taikopath.go`: RLP-encode `journalIndex` holding the
index's `idList` (a nil slice encodes like an empty one) and write it under the
index's key. -/
def savePathIndex (p : pathIndex) (db : DB) : DB :=
  WritePathIndex db p.key (rlp.encJournalIndex (p.idList.getD []))

/-- C10: saving a `pathIndex` with `savePathIndex` and reloading it with
`loadPathIndex` under the same key round-trips the `idList` through the RLP
journal byte for byte; loading a key that was never stored returns a non-nil
index with an empty, zero-length `idList` rather than an error. -/
theorem savePathIndex_loadPathIndex_spec (p : pathIndex) (ids : List Nat)
    (db : DB) (hids : p.idList = some ids)
    (hbound : ∀ v ∈ ids, v < 2 ^ 64) :
    loadPathIndex (savePathIndex p db) p.key = some ⟨p.key, some ids⟩
    ∧ ∀ (db2 : DB) (key2 : List Nat), ReadPathIndex db2 key2 = [] →
        loadPathIndex db2 key2 = some ⟨key2, some []⟩ := by
  constructor
  · have hdata : ReadPathIndex (savePathIndex p db) p.key =
        rlp.encJournalIndex ids := by
      simp [savePathIndex, WritePathIndex, ReadPathIndex, hids]
    simp only [loadPathIndex, hdata,
      if_neg (rlp.encJournalIndex_length_ne_zero ids),
      rlp.decJournalIndex_enc ids hbound]
  · intro db2 key2 h
    simp [loadPathIndex, h]

/-- Witness for C10 at a concrete index and an empty database. -/
theorem savePathIndex_loadPathIndex_spec_witness :
    loadPathIndex (savePathIndex ⟨[1], some [0, 5, 200, 70000]⟩ (fun _ => [])) [1]
      = some ⟨[1], some [0, 5, 200, 70000]⟩
    ∧ ∀ (db2 : DB) (key2 : List Nat), ReadPathIndex db2 key2 = [] →
        loadPathIndex db2 key2 = some ⟨key2, some []⟩ :=
  savePathIndex_loadPathIndex_spec ⟨[1], some [0, 5, 200, 70000]⟩
    [0, 5, 200, 70000] (fun _ => []) rfl (by decide)

end pathdb

namespace discover

/-- Decode errors of `hexutil.Decode`: empty input, missing `0x`, and the
syntax/odd-length failures collapsed into one case. -/
inductive HexErr where
  | emptyStr : HexErr
  | missing0x : HexErr
  | invalidHex : HexErr
deriving DecidableEq, Repr

/-- Value of one hex digit character, `none` for a non-digit. -/
def hexVal (c : Char) : Option Nat :=
  if '0' ≤ c ∧ c ≤ '9' then some (c.toNat - '0'.toNat)
  else if 'a' ≤ c ∧ c ≤ 'f' then some (c.toNat - 'a'.toNat + 10)
  else if 'A' ≤ c ∧ c ≤ 'F' then some (c.toNat - 'A'.toNat + 10)
  else none

/-- Parse pairs of hex digits into bytes; fails on an odd-length tail or a
non-digit, like `hex.DecodeString`. -/
def hexPairs : List Char → Option (List Nat)
  | [] => some []
  | [_] => none
  | c1 :: c2 :: rest =>
    match hexVal c1, hexVal c2, hexPairs rest with
    | some h1, some h2, some t => some ((h1 * 16 + h2) :: t)
    | _, _, _ => none

/-- `hexutil.Decode`: requires a leading `0x`, then an even run of hex
digits. -/
def hexDecode : List Char → Except HexErr (List Nat)
  | [] => .error .emptyStr
  | '0' :: 'x' :: rest =>
    match hexPairs rest with
    | some bs => .ok bs
    | none => .error .invalidHex
  | _ :: _ => .error .missing0x

/-- Character for one hex digit value (lower case, as `hexutil.Encode`). -/
def hexDigitChar (n : Nat) : Char :=
  if n < 10 then Char.ofNat ('0'.toNat + n) else Char.ofNat ('a'.toNat + n - 10)

/-- `hexutil.Encode`: `0x` followed by two lower-case digits per byte. -/
def hexEncode (bs : List Nat) : List Char :=
  '0' :: 'x' :: (bs.map fun b => [hexDigitChar (b / 16), hexDigitChar (b % 16)]).flatten

/-- Modelled from the spec: the XOR distance between two fixed-width
identifiers interpreted as unsigned integers — the closeness metric of the
overlay (`enode.LogDist`'s underlying metric, `node.Distance` in the tests). -/
def distance (a b : Nat) : Nat := a ^^^ b

/-- C8: the XOR distance metric satisfies `distance(x, x) = 0` for every
identifier and is symmetric: `distance(a, b) = distance(b, a)`. -/
theorem distance_self_eq_zero_and_comm :
    (∀ x : Nat, distance x x = 0) ∧ ∀ a b : Nat, distance a b = distance b a :=
  ⟨fun x => Nat.xor_self x, fun a b => Nat.xor_comm a b⟩

/-- Modelled from the spec: the three mutually exclusive single-byte selectors
of a find-content response on the wire: a connection id for a micro-transport
pull, a raw inline payload, and a list of closer peer records. -/
def ContentConnIdSelector : Nat := 0x00

/-- Modelled from the spec: selector of a raw inline find-content payload. -/
def ContentRawSelector : Nat := 0x01

/-- Modelled from the spec: selector of a closer-peer-records find-content
response. -/
def ContentEnrsSelector : Nat := 0x02

/-- Modelled from the spec: what `findContent` hands back together with the
selector byte — raw bytes (for the raw and connection-id cases, the latter
after the micro-transport pull) or a list of peer records (enr strings). -/
inductive FindContentResult where
  | bytes (bs : List Nat) : FindContentResult
  | nodes (es : List (List Char)) : FindContentResult
deriving DecidableEq, Repr

/-- Result of the RPC find-content call in `api.go`: either a `ContentInfo`
(hex content plus the utp transfer flag) or an `Enrs` record list. -/
inductive FindContentResp where
  | contentInfo (content : List Char) (utpTransfer : Bool) : FindContentResp
  | enrs (es : List (List Char)) : FindContentResp
deriving DecidableEq, Repr

/-- `HistoryFindContent`'s dispatch on the selector byte (api.go): the raw
selector yields a content result with transfer flag `false`, the
connection-id selector one with transfer flag `true`, and any other selector
the list of peer records.  `none` models the Go type assertion panic when the
payload shape does not match the selector. -/
def HistoryFindContent (flag : Nat) (res : FindContentResult) :
    Option FindContentResp :=
  if flag = ContentRawSelector then
    match res with
    | .bytes bs => some (.contentInfo (hexEncode bs) false)
    | .nodes _ => none
  else if flag = ContentConnIdSelector then
    match res with
    | .bytes bs => some (.contentInfo (hexEncode bs) true)
    | .nodes _ => none
  else
    match res with
    | .nodes es => some (.enrs es)
    | .bytes _ => none

/-- C1: the three find-content selectors are mutually distinct one-byte
values, and the RPC find-content dispatch maps the raw selector to a content
result with transfer flag `false`, the connection-id selector to a content
result with transfer flag `true`, and any other selector to the list of peer
records. -/
theorem HistoryFindContent_selector_spec :
    (ContentRawSelector ≠ ContentConnIdSelector
      ∧ ContentRawSelector ≠ ContentEnrsSelector
      ∧ ContentConnIdSelector ≠ ContentEnrsSelector)
    ∧ (∀ bs : List Nat, HistoryFindContent ContentRawSelector (.bytes bs) =
        some (.contentInfo (hexEncode bs) false))
    ∧ (∀ bs : List Nat, HistoryFindContent ContentConnIdSelector (.bytes bs) =
        some (.contentInfo (hexEncode bs) true))
    ∧ (∀ (flag : Nat) (es : List (List Char)), flag ≠ ContentRawSelector →
        flag ≠ ContentConnIdSelector →
        HistoryFindContent flag (.nodes es) = some (.enrs es)) := by
  refine ⟨⟨by decide, by decide, by decide⟩, ?_, ?_, ?_⟩
  · intro bs
    simp [HistoryFindContent]
  · intro bs
    simp [HistoryFindContent, ContentRawSelector, ContentConnIdSelector]
  · intro flag es h1 h2
    simp [HistoryFindContent, h1, h2]

/-- Witness for C1 at the concrete selector `5` (not raw, not connection-id):
the dispatch returns the peer-record list. -/
theorem HistoryFindContent_selector_spec_witness :
    HistoryFindContent 5 (.nodes [['a']]) = some (.enrs [['a']]) :=
  HistoryFindContent_selector_spec.2.2.2 5 [['a']] (by decide) (by decide)

/-- Errors of the content-storage collaborator: the well-formed negative
result `storage.ErrContentNotFound`, and other storage failures. -/
inductive StorageErr where
  | ErrContentNotFound : StorageErr
  | failure (code : Nat) : StorageErr
deriving DecidableEq, Repr

/-- Errors surfaced by the RPC layer in `api.go`: hex-decoding failures of the
request arguments, and storage failures passed through. -/
inductive RpcErr where
  | hexErr (e : HexErr) : RpcErr
  | storageErr (e : StorageErr) : RpcErr
deriving DecidableEq, Repr

/-- `HistoryLocalContent` from `api.go`: decode the hex content key, map it to
a content id, read the local store; `ErrContentNotFound` becomes the explicit
empty-content marker `"0x"` with no error, any other storage failure and any
malformed input are returned as errors.  `toContentId` (the deterministic
key-to-id mapping) and `get` (the store read) are the collaborator functions
`p.portalProtocol.ToContentId` and `p.portalProtocol.Get`. -/
def HistoryLocalContent (toContentId : List Nat → Nat)
    (get : Nat → Except StorageErr (List Nat))
    (contentKeyHex : List Char) : Except RpcErr (List Char) :=
  match hexDecode contentKeyHex with
  | .error e => .error (.hexErr e)
  | .ok contentKey =>
    match get (toContentId contentKey) with
    | .error .ErrContentNotFound => .ok ['0', 'x']
    | .error e => .error (.storageErr e)
    | .ok content => .ok (hexEncode content)

/-- C6: when the content id is absent from the local store,
`HistoryLocalContent` returns the empty-content marker `"0x"` with no error
instead of propagating `ErrContentNotFound`; an error is returned only for
malformed input or a storage failure other than not-found. -/
theorem HistoryLocalContent_spec (toContentId : List Nat → Nat)
    (get : Nat → Except StorageErr (List Nat)) (contentKeyHex : List Char) :
    (∀ key, hexDecode contentKeyHex = Except.ok key →
      get (toContentId key) = Except.error StorageErr.ErrContentNotFound →
      HistoryLocalContent toContentId get contentKeyHex = Except.ok ['0', 'x'])
    ∧ (∀ e, HistoryLocalContent toContentId get contentKeyHex = Except.error e →
        (∃ he, hexDecode contentKeyHex = Except.error he ∧ e = RpcErr.hexErr he)
        ∨ (∃ key se, hexDecode contentKeyHex = Except.ok key ∧
            get (toContentId key) = Except.error se ∧
            se ≠ StorageErr.ErrContentNotFound ∧ e = RpcErr.storageErr se)) := by
  constructor
  · intro key hdec hget
    simp [HistoryLocalContent, hdec, hget]
  · intro e he
    cases hdec : hexDecode contentKeyHex with
    | error he2 =>
      simp [HistoryLocalContent, hdec] at he
      exact Or.inl ⟨he2, rfl, he.symm⟩
    | ok key =>
      cases hget : get (toContentId key) with
      | error se =>
        cases se with
        | ErrContentNotFound => simp [HistoryLocalContent, hdec, hget] at he
        | failure code =>
          simp [HistoryLocalContent, hdec, hget] at he
          exact Or.inr ⟨key, .failure code, rfl, hget, by simp, he.symm⟩
      | ok content => simp [HistoryLocalContent, hdec, hget] at he

/-- Witness for C6 at a concrete hex key over a store holding nothing. -/
theorem HistoryLocalContent_spec_witness :
    HistoryLocalContent (fun _ => 0)
      (fun _ => Except.error StorageErr.ErrContentNotFound)
      ['0', 'x', '0', '1'] = Except.ok ['0', 'x'] :=
  (HistoryLocalContent_spec (fun _ => 0)
      (fun _ => Except.error StorageErr.ErrContentNotFound)
      ['0', 'x', '0', '1']).1 [1] (by rfl) rfl

/-- Modelled from the spec: admission control — whether a content id lies
within the node's advertised radius; a pure function of (local id, radius,
content-id) comparing the XOR distance from the local id against the
radius. -/
def InRange (localId radius contentId : Nat) : Bool :=
  decide (distance localId contentId ≤ radius)

/-- `HistoryStore` from `api.go`: decode the hex content key, map it to a
content id; outside the advertised radius the call returns `false` with no
error before the content is even decoded; in range, the content is decoded
and `Put` is invoked.  The third component records the `Put` calls made
(empty means the store is left unchanged). -/
def HistoryStore (localId radius : Nat) (toContentId : List Nat → Nat)
    (contentKeyHex contextHex : List Char) :
    Bool × Option RpcErr × List (Nat × List Nat) :=
  match hexDecode contentKeyHex with
  | .error e => (false, some (.hexErr e), [])
  | .ok contentKey =>
    if InRange localId radius (toContentId contentKey) then
      match hexDecode contextHex with
      | .error e => (false, some (.hexErr e), [])
      | .ok content => (true, none, [(toContentId contentKey, content)])
    else (false, none, [])

/-- C7: a store request whose content id lies outside the advertised radius
returns `false` with no error and never invokes `Put` (the content store is
unchanged); the in-range decision is the pure function `InRange` of the local
id, the radius and the content id. -/
theorem HistoryStore_not_in_range (localId radius : Nat)
    (toContentId : List Nat → Nat) (contentKey : List Nat)
    (contentKeyHex contextHex : List Char)
    (hdec : hexDecode contentKeyHex = Except.ok contentKey)
    (hout : InRange localId radius (toContentId contentKey) = false) :
    HistoryStore localId radius toContentId contentKeyHex contextHex
      = (false, none, [])
    ∧ ∀ l r c : Nat, InRange l r c = decide (distance l c ≤ r) := by
  constructor
  · simp [HistoryStore, hdec, hout]
  · intro l r c
    rfl

/-- Witness for C7: local id `0`, radius `2`, content id `5` — out of range,
so the store call reports `false` with no error and performs no `Put`. -/
theorem HistoryStore_not_in_range_witness :
    HistoryStore 0 2 (fun _ => 5) ['0', 'x', '0', '1'] ['0', 'x', '0', '2']
      = (false, none, [])
    ∧ ∀ l r c : Nat, InRange l r c = decide (distance l c ≤ r) :=
  HistoryStore_not_in_range 0 2 (fun _ => 5) [1]
    ['0', 'x', '0', '1'] ['0', 'x', '0', '2'] (by rfl) (by rfl)

/-- Modelled from the spec: what the find-content responder produces for
locally held content — the raw payload inline when it fits below the datagram
threshold, otherwise a negotiated micro-transport connection id for a
subsequent pull. -/
inductive ServeOutcome where
  | inline (bs : List Nat) : ServeOutcome
  | connId (cid : Nat) : ServeOutcome
deriving DecidableEq, Repr

/-- Modelled from the spec: the responder's size check against the inline
datagram threshold. -/
def serveContent (threshold cid : Nat) (payload : List Nat) : ServeOutcome :=
  if payload.length ≤ threshold then .inline payload else .connId cid

/-- Modelled from the spec: a micro-transport receiver drains the reliable
ordered stream with a fixed buffer of `buf + 1` bytes per read, collecting
the reads until end of stream; the payload length need not be
buffer-aligned. -/
def readChunks (buf : Nat) (stream : List Nat) : List (List Nat) :=
  if h : stream = [] then []
  else stream.take (buf + 1) :: readChunks buf (stream.drop (buf + 1))
termination_by stream.length
decreasing_by
  have hpos : 0 < stream.length := List.length_pos.mpr h
  simp only [List.length_drop]
  omega

/-- Modelled from the spec: one complete find-content transfer as the
requester observes it: the inline case delivers the bytes directly and opens
no micro-transport connection; the connection-id case opens one and the
requester drains the stream chunk by chunk.  Returns the pair
(micro-transport used, received bytes). -/
def fetchContent (threshold cid buf : Nat) (payload : List Nat) :
    Bool × List Nat :=
  match serveContent threshold cid payload with
  | .inline bs => (false, bs)
  | .connId _ => (true, (readChunks buf payload).flatten)

theorem readChunks_flatten (buf : Nat) (stream : List Nat) :
    (readChunks buf stream).flatten = stream := by
  by_cases h : stream = []
  · simp [readChunks, h]
  · rw [readChunks, dif_neg h, List.flatten_cons,
      readChunks_flatten buf (stream.drop (buf + 1)), List.take_append_drop]
termination_by stream.length
decreasing_by
  have hpos : 0 < stream.length := List.length_pos.mpr h
  simp only [List.length_drop]
  omega

/-- C2: a payload strictly below the inline threshold is delivered inline —
no micro-transport connection is opened — and a payload strictly above the
threshold always opens one; in both cases the requester receives exactly the
bytes served, byte for byte, for arbitrary payload lengths including
non-buffer-aligned ones. -/
theorem fetchContent_threshold_spec (threshold cid buf : Nat)
    (payload : List Nat) :
    (payload.length < threshold →
      fetchContent threshold cid buf payload = (false, payload))
    ∧ (threshold < payload.length →
      fetchContent threshold cid buf payload = (true, payload)) := by
  constructor
  · intro h
    simp [fetchContent, serveContent, Nat.le_of_lt h]
  · intro h
    have hgt : ¬payload.length ≤ threshold := by omega
    simp [fetchContent, serveContent, hgt, readChunks_flatten]

/-- Witness for C2: a five-byte payload above a threshold of `3`, drained
with a two-byte buffer (a non-aligned final read), arrives byte for byte over
the micro-transport. -/
theorem fetchContent_threshold_spec_witness :
    fetchContent 3 12 1 [10, 20, 30, 40, 50] = (true, [10, 20, 30, 40, 50]) :=
  (fetchContent_threshold_spec 3 12 1 [10, 20, 30, 40, 50]).2 (by decide)

/-- `ContentEntry` from the offer path: an application content key and its
payload bytes. -/
structure ContentEntry where
  ContentKey : List Nat
  Content : List Nat
deriving DecidableEq, Repr

/-- `ContentElement`: what the receiving side pushes onto its content
ingestion queue — the offering node's id and the accepted keys and payloads. -/
structure ContentElement where
  Node : Nat
  ContentKeys : List (List Nat)
  Contents : List (List Nat)
deriving DecidableEq, Repr

/-- Modelled from the spec: the varint (LEB128) length marker that delimits
each accepted payload on the micro-transport stream. -/
def varintEncode (n : Nat) : List Nat :=
  if h : n < 0x80 then [n]
  else (n % 0x80 + 0x80) :: varintEncode (n / 0x80)
termination_by n
decreasing_by exact Nat.div_lt_self (by omega) (by norm_num)

/-- Modelled from the spec: read one varint off the stream front; `fuel`
bounds the number of continuation bytes. -/
def varintDecode : Nat → List Nat → Option (Nat × List Nat)
  | _, [] => none
  | 0, _ :: _ => none
  | fuel + 1, b :: rest =>
    if b < 0x80 then some (b, rest)
    else
      match varintDecode fuel rest with
      | some (v, rest2) => some (v * 0x80 + (b - 0x80), rest2)
      | none => none

/-- Modelled from the spec: the accepted payloads streamed length-delimited in
entry order. -/
def encodePayloads (contents : List (List Nat)) : List Nat :=
  (contents.map fun c => varintEncode c.length ++ c).flatten

/-- Modelled from the spec: the receiver splits the stream back into payloads
by reading a varint length and then that many bytes, until end of stream;
`fuel` bounds the number of payloads. -/
def decodePayloads : Nat → List Nat → Option (List (List Nat))
  | _, [] => some []
  | 0, _ :: _ => none
  | fuel + 1, b :: rest =>
    match varintDecode (b :: rest).length (b :: rest) with
    | none => none
    | some (len, rest2) =>
      if len ≤ rest2.length then
        match decodePayloads fuel (rest2.drop len) with
        | some tail => some (rest2.take len :: tail)
        | none => none
      else none

/-- Modelled from the spec: the accepted sub-batch of an offer — the entries
whose acceptance bit is set, in offer order. -/
def acceptedEntries (entries : List ContentEntry) (accepts : List Bool) :
    List ContentEntry :=
  ((entries.zip accepts).filter fun pa => pa.2).map fun pa => pa.1

/-- Modelled from the spec: one Offer/Accept exchange: the peer answers with
a bit-per-entry acceptance mask; the accepted payloads are streamed
length-delimited in entry order over the micro-transport; the receiver
decodes the stream and enqueues a single `ContentElement` carrying the
accepted keys and payloads; the offering side reports the acceptance
bitfield.  Returns (bitfield, receiver's ingestion queue). -/
def offerExchange (src : Nat) (entries : List ContentEntry)
    (accepts : List Bool) : List Bool × List ContentElement :=
  let accepted := acceptedEntries entries accepts
  match decodePayloads accepted.length
      (encodePayloads (accepted.map ContentEntry.Content)) with
  | some contents =>
    (accepts, [⟨src, accepted.map ContentEntry.ContentKey, contents⟩])
  | none => (accepts, [])

theorem varintEncode_ne_nil (n : Nat) : varintEncode n ≠ [] := by
  rw [varintEncode]
  by_cases h : n < 0x80 <;> simp [h]

theorem varintDecode_enc (n : Nat) : ∀ (fuel : Nat) (tail : List Nat),
    (varintEncode n).length ≤ fuel →
    varintDecode fuel (varintEncode n ++ tail) = some (n, tail) := by
  induction n using Nat.strong_induction_on with
  | _ n ih =>
    intro fuel tail hfuel
    by_cases h : n < 0x80
    · rw [varintEncode, dif_pos h] at hfuel ⊢
      obtain ⟨f, rfl⟩ : ∃ f, fuel = f + 1 := by
        cases fuel with
        | zero => simp at hfuel
        | succ f => exact ⟨f, rfl⟩
      simp [varintDecode, if_pos h]
    · rw [varintEncode, dif_neg h] at hfuel ⊢
      obtain ⟨f, rfl⟩ : ∃ f, fuel = f + 1 := by
        cases fuel with
        | zero => simp at hfuel
        | succ f => exact ⟨f, rfl⟩
      simp only [List.length_cons] at hfuel
      have hrec := ih (n / 0x80) (Nat.div_lt_self (by omega) (by norm_num))
        f tail (by omega)
      rw [List.cons_append, varintDecode,
        if_neg (by omega : ¬n % 0x80 + 0x80 < 0x80), hrec]
      show some (n / 0x80 * 0x80 + (n % 0x80 + 0x80 - 0x80), tail) = some (n, tail)
      have harith : n / 0x80 * 0x80 + (n % 0x80 + 0x80 - 0x80) = n := by omega
      rw [harith]

theorem decodePayloads_step (fuel : Nat) (stream : List Nat)
    (hne : stream ≠ []) (len : Nat) (rest2 : List Nat)
    (hvd : varintDecode stream.length stream = some (len, rest2))
    (hle : len ≤ rest2.length) :
    decodePayloads (fuel + 1) stream =
      match decodePayloads fuel (rest2.drop len) with
      | some tail => some (rest2.take len :: tail)
      | none => none := by
  obtain ⟨b, bs, rfl⟩ := List.exists_cons_of_ne_nil hne
  rw [decodePayloads, hvd]
  simp [hle]

theorem decodePayloads_enc : ∀ (contents : List (List Nat)) (fuel : Nat),
    contents.length ≤ fuel →
    decodePayloads fuel (encodePayloads contents) = some contents := by
  intro contents
  induction contents with
  | nil =>
    intro fuel _
    simp only [encodePayloads, List.map_nil, List.flatten_nil]
    cases fuel <;> rfl
  | cons c cs ih =>
    intro fuel hfuel
    obtain ⟨f, rfl⟩ : ∃ f, fuel = f + 1 := by
      cases fuel with
      | zero => simp at hfuel
      | succ f => exact ⟨f, rfl⟩
    have hstream : encodePayloads (c :: cs) =
        varintEncode c.length ++ (c ++ encodePayloads cs) := by
      simp [encodePayloads, List.append_assoc]
    have hne2 : encodePayloads (c :: cs) ≠ [] := by
      rw [hstream]
      simp [varintEncode_ne_nil]
    have hlen2 : (varintEncode c.length).length ≤
        (encodePayloads (c :: cs)).length := by
      rw [hstream]
      simp
    have hvd := varintDecode_enc c.length (encodePayloads (c :: cs)).length
      (c ++ encodePayloads cs) hlen2
    rw [← hstream] at hvd
    rw [decodePayloads_step f _ hne2 _ _ hvd (by simp),
      List.drop_left, List.take_left, ih f (by simpa using hfuel)]

/-- C3: offering two distinct content entries both of which the receiver
accepts delivers each offered content key and value to the receiver's
ingestion queue exactly once (one queue element holding both), in the
original offer order, and the acceptance bitfield reported by the offering
side has one bit set per accepted entry. -/
theorem offerExchange_two_accepted (src : Nat) (e1 e2 : ContentEntry)
    (hne : e1 ≠ e2) :
    offerExchange src [e1, e2] [true, true] =
      ([true, true],
        [⟨src, [e1.ContentKey, e2.ContentKey], [e1.Content, e2.Content]⟩])
    ∧ List.count true [true, true] = List.length [e1, e2] := by
  constructor
  · have hdec := decodePayloads_enc [e1.Content, e2.Content] 2 (by simp)
    simp [offerExchange, acceptedEntries, hdec]
  · simp

/-- Witness for C3 at two concrete distinct entries. -/
theorem offerExchange_two_accepted_witness :
    offerExchange 7 [⟨[1], [2]⟩, ⟨[3], [4]⟩] [true, true] =
      ([true, true], [⟨7, [[1], [3]], [[2], [4]]⟩])
    ∧ List.count true [true, true] =
        List.length [(⟨[1], [2]⟩ : ContentEntry), ⟨[3], [4]⟩] :=
  offerExchange_two_accepted 7 ⟨[1], [2]⟩ ⟨[3], [4]⟩ (by decide)

/-- Protocol error taxonomy relevant to the lookup path: `ContentNotFound` is
the well-formed negative result (`storage.ErrContentNotFound` surfaced by the
lookup when no peer yields data). -/
inductive PortalErr where
  | ContentNotFound : PortalErr
deriving DecidableEq, Repr

/-- Modelled from the spec: insertion into a shortlist kept sorted by
distance to the target. -/
def insertByDist (d : Nat → Nat) (p : Nat) : List Nat → List Nat
  | [] => [p]
  | q :: rest =>
    if d p ≤ d q then p :: q :: rest else q :: insertByDist d p rest

/-- Modelled from the spec: the shortlist re-sorted by distance to the
target. -/
def sortByDist (d : Nat → Nat) (l : List Nat) : List Nat :=
  l.foldr (insertByDist d) []

/-- Modelled from the spec: the iterative lookup loop — query the closest
not-yet-queried peer; content short-circuits with success; otherwise the
newly reported closer peers are merged into the shortlist (deduplicated,
re-sorted by distance) and the loop continues; an exhausted shortlist or
round budget ends the lookup without data.  A peer failure behaves like an
empty report, so failing peers are simply dropped from the shortlist. -/
def lookupRounds (store : Nat → Option (List Nat)) (closer : Nat → List Nat)
    (d : Nat → Nat) : Nat → List Nat → List Nat → Option (List Nat)
  | 0, _, _ => none
  | _ + 1, [], _ => none
  | fuel + 1, p :: rest, queried =>
    match store p with
    | some content => some content
    | none =>
      lookupRounds store closer d fuel
        (sortByDist d (rest ++ (closer p).filter fun q =>
          !(queried.contains q) && !((p :: rest).contains q)))
        (p :: queried)

/-- `ContentLookup` modelled from the spec: run the iterative lookup from the
seed peers; a hit returns the payload; exhaustion returns a nil payload and
the `ContentNotFound` error.  Result is (payload, utp-transfer flag,
error). -/
def ContentLookup (store : Nat → Option (List Nat)) (closer : Nat → List Nat)
    (d : Nat → Nat) (seed : List Nat) (fuel : Nat) :
    Option (List Nat) × Bool × Option PortalErr :=
  match lookupRounds store closer d fuel (sortByDist d seed) [] with
  | some c => (some c, false, none)
  | none => (none, false, some .ContentNotFound)

theorem lookupRounds_all_none (store : Nat → Option (List Nat))
    (closer : Nat → List Nat) (d : Nat → Nat)
    (hstore : ∀ p, store p = none) :
    ∀ (fuel : Nat) (shortlist queried : List Nat),
      lookupRounds store closer d fuel shortlist queried = none := by
  intro fuel
  induction fuel with
  | zero => intro shortlist queried; rfl
  | succ f ih =>
    intro shortlist queried
    cases shortlist with
    | nil => rfl
    | cons p rest =>
      simp only [lookupRounds, hstore]
      exact ih _ _

/-- C4: a content lookup for a key that no reachable node stores returns the
`ContentNotFound` error together with a nil payload (and no transfer
flag). -/
theorem ContentLookup_not_found (store : Nat → Option (List Nat))
    (closer : Nat → List Nat) (d : Nat → Nat) (seed : List Nat) (fuel : Nat)
    (hstore : ∀ p, store p = none) :
    ContentLookup store closer d seed fuel =
      (none, false, some PortalErr.ContentNotFound) := by
  rw [ContentLookup, lookupRounds_all_none store closer d hstore]

/-- Witness for C4: a three-peer network in which nobody stores the key. -/
theorem ContentLookup_not_found_witness :
    ContentLookup (fun _ => none) (fun _ => [1, 2, 3]) (fun p => p) [1, 2, 3] 9
      = (none, false, some PortalErr.ContentNotFound) :=
  ContentLookup_not_found (fun _ => none) (fun _ => [1, 2, 3]) (fun p => p)
    [1, 2, 3] 9 (fun _ => rfl)

/-- Modelled from the spec: the gossip loop — one Offer call per selected
peer; a successful offer counts one; a failed per-peer offer is swallowed
(logged) and contributes nothing. -/
def gossipLoop (offerOk : Nat → Bool) : List Nat → Nat
  | [] => 0
  | p :: rest => (if offerOk p then 1 else 0) + gossipLoop offerOk rest

/-- `NeighborhoodGossip` modelled from the spec: offer the key/value batch to
each selected peer (the table peers closest to the content id, the origin
excluded by the selection); each successful offer delivers one
`ContentElement` carrying exactly the offered keys and values to that peer's
ingestion queue; per-peer failures never fail the batch; the call returns the
success count and no error, plus each peer's resulting queue. -/
def NeighborhoodGossip (src : Nat) (keys vals : List (List Nat))
    (offerOk : Nat → Bool) (selected : List Nat) :
    (Nat × Option PortalErr) × (Nat → List ContentElement) :=
  ((gossipLoop offerOk selected, none),
    fun p => if p ∈ selected ∧ offerOk p = true then [⟨src, keys, vals⟩] else [])

theorem gossipLoop_le_length (offerOk : Nat → Bool) :
    ∀ selected : List Nat, gossipLoop offerOk selected ≤ selected.length := by
  intro selected
  induction selected with
  | nil => simp [gossipLoop]
  | cons p rest ih =>
    simp only [gossipLoop, List.length_cons]
    by_cases h : offerOk p = true <;> simp [h] <;> omega

/-- C5: gossip to `N` selected peers reports a success count at most `N` and
never an error even when individual per-peer offers fail, and every peer
counted as a success receives exactly the offered key/value batch in its
ingestion queue. -/
theorem NeighborhoodGossip_spec (src : Nat) (keys vals : List (List Nat))
    (offerOk : Nat → Bool) (selected : List Nat) :
    (NeighborhoodGossip src keys vals offerOk selected).1.1 ≤ selected.length
    ∧ (NeighborhoodGossip src keys vals offerOk selected).1.2 = none
    ∧ ∀ p ∈ selected, offerOk p = true →
        (NeighborhoodGossip src keys vals offerOk selected).2 p
          = [⟨src, keys, vals⟩] := by
  refine ⟨gossipLoop_le_length offerOk selected, rfl, ?_⟩
  intro p hmem hok
  simp [NeighborhoodGossip, hmem, hok]

/-- Witness for C5: two selected peers, the second of which fails its offer;
the batch still succeeds with count `1 ≤ 2` and the first peer's queue holds
exactly the offered pair. -/
theorem NeighborhoodGossip_spec_witness :
    (NeighborhoodGossip 9 [[1]] [[2]] (fun p => p == 1) [1, 2]).1.1 ≤
        List.length [1, 2]
    ∧ (NeighborhoodGossip 9 [[1]] [[2]] (fun p => p == 1) [1, 2]).1.2 = none
    ∧ (NeighborhoodGossip 9 [[1]] [[2]] (fun p => p == 1) [1, 2]).2 1
        = [⟨9, [[1]], [[2]]⟩] :=
  ⟨(NeighborhoodGossip_spec 9 [[1]] [[2]] (fun p => p == 1) [1, 2]).1,
    (NeighborhoodGossip_spec 9 [[1]] [[2]] (fun p => p == 1) [1, 2]).2.1,
    (NeighborhoodGossip_spec 9 [[1]] [[2]] (fun p => p == 1) [1, 2]).2.2 1
      (by decide) (by decide)⟩

end discover
